import Mathlib

set_option maxRecDepth 8000

/-!
Verification development for the kioku LLM provider / memory-synthesis
subsystem: a shallow embedding of the stream normalizer
(`BaseCloudProvider.handleStream`, `AnthropicProvider.handleStream`,
`LocalProvider.chatCompletion`), the error assembly on non-2xx responses,
the provider registry (`LLMService.loadProvider` / `chatCompletion`), the
memory synthesizer (`LLMService.extractUserFacts`,
`LLMService.extractExplicitMemory`, `processRollingSynthesis`) and the
reminder tag parser from `handleSend`, together with theorems settling the
specification claims about them.
-/

namespace Kioku

/-- The opening brace character, written by code to keep brace characters
out of string literals. -/
def lbrace : Char := Char.ofNat 123

/-- The closing brace character. -/
def rbrace : Char := Char.ofNat 125

/-- ASCII whitespace, modelling the characters the JavaScript regexp
class matches on the ASCII inputs this development works with. -/
def isWS (c : Char) : Bool :=
  c = ' ' || c = '\t' || c = '\n' || c = '\r' || c = Char.ofNat 11 || c = Char.ofNat 12

/-- Substring test on character lists: some suffix of `hay` starts with
`needle`. Models JavaScript `String.prototype.includes`. -/
def containsSub (hay needle : List Char) : Bool :=
  hay.tails.any (fun t => needle.isPrefixOf t)

/-- `String.prototype.includes` on strings. -/
def strIncludes (hay needle : String) : Bool :=
  containsSub hay.toList needle.toList

/-- `line.includes('[DONE]')`, the stream-termination sentinel test in
`BaseCloudProvider.handleStream`. -/
def containsDone (line : String) : Bool :=
  strIncludes line "[DONE]"

/-- JavaScript `String.prototype.trim` on a character list (ASCII model). -/
def jsTrim (cs : List Char) : List Char :=
  ((cs.dropWhile isWS).reverse.dropWhile isWS).reverse

/-- `trim` lifted to `String`. -/
def jsTrimS (s : String) : String :=
  (jsTrim s.toList).asString

/-- `split('\n')` on a character list: every occurrence of the newline
separator splits, empty pieces included. -/
def splitNL : List Char → List (List Char)
  | [] => [[]]
  | c :: rest =>
    if c = '\n' then [] :: splitNL rest
    else
      match splitNL rest with
      | [] => [[c]]
      | piece :: pieces => (c :: piece) :: pieces

/-- JavaScript `chunk.split('\n')` on strings. -/
def jsSplitNewline (s : String) : List String :=
  (splitNL s.toList).map List.asString

/-- JavaScript `line.startsWith(marker)`. -/
def jsStartsWith (s marker : String) : Bool :=
  marker.toList.isPrefixOf s.toList

end Kioku

namespace BaseCloudProvider

open Kioku

/-- `chunk.split('\n').filter(line => line.trim() !== '')` from
`BaseCloudProvider.handleStream`. -/
def splitLines (chunk : String) : List String :=
  (jsSplitNewline chunk).filter (fun line => jsTrimS line ≠ "")

/-- The inner `for (const line of lines)` loop of
`BaseCloudProvider.handleStream`.  `decode` models the composition of
`JSON.parse` on the part of the line after the `data: ` marker (`none`
when `JSON.parse` throws) with the adapter's `extractContent`; the
accumulator `fullText` and the list of arguments passed to `onUpdate` are
threaded explicitly. `break` on a sentinel line exits this loop only. -/
def processLines (decode : String → Option String) :
    List String → String → List String → String × List String
  | [], fullText, calls => (fullText, calls)
  | line :: rest, fullText, calls =>
    if containsDone line then (fullText, calls)
    else if jsStartsWith line "data: " then
      match decode (line.drop 6) with
      | some content =>
          processLines decode rest (fullText ++ content) (calls ++ [fullText ++ content])
      | none => processLines decode rest fullText calls
    else processLines decode rest fullText calls

/-- `BaseCloudProvider.handleStream` over a list of already-decoded text
chunks: the outer `while` loop reads one chunk per iteration and feeds its
non-blank lines to the line loop.  Returns the resolved `fullText`
together with the arguments of every `onUpdate` invocation in order. -/
def handleStream (decode : String → Option String) (chunks : List String) :
    String × List String :=
  chunks.foldl (fun st chunk => processLines decode (splitLines chunk) st.1 st.2) ("", [])

end BaseCloudProvider

namespace AnthropicProvider

open Kioku

/-- The line loop of `AnthropicProvider.handleStream`: no sentinel check
and no blank-line filter; `decode` models `JSON.parse` followed by the
`data.type === 'content_block_delta'` guard and the `data.delta.text`
projection (`none` when the parse throws or the guard rejects). -/
def processLines (decode : String → Option String) :
    List String → String → List String → String × List String
  | [], fullText, calls => (fullText, calls)
  | line :: rest, fullText, calls =>
    if jsStartsWith line "data: " then
      match decode (line.drop 6) with
      | some content =>
          processLines decode rest (fullText ++ content) (calls ++ [fullText ++ content])
      | none => processLines decode rest fullText calls
    else processLines decode rest fullText calls

/-- `AnthropicProvider.handleStream` over a list of decoded text chunks;
lines are `chunk.split('\n')` with no filtering. -/
def handleStream (decode : String → Option String) (chunks : List String) :
    String × List String :=
  chunks.foldl (fun st chunk => processLines decode (jsSplitNewline chunk) st.1 st.2) ("", [])

end AnthropicProvider

namespace LocalProvider

/-- The accumulation loop of `LocalProvider.chatCompletion`: `contents`
is the list of per-chunk values of `chunk.choices[0]?.delta?.content || ""`;
each iteration appends and invokes `onUpdate` with the cumulative text. -/
def chatCompletion (contents : List String) : String × List String :=
  contents.foldl (fun st content => (st.1 ++ content, st.2 ++ [st.1 ++ content])) ("", [])

end LocalProvider

namespace Kioku

/-- Left fold of string concatenation: `joinFrom acc l` is `acc` followed
by the elements of `l` in order.  Used to state that the stream handlers
produce the order-preserving concatenation of decoded fragments. -/
def joinFrom : String → List String → String
  | acc, [] => acc
  | acc, piece :: rest => joinFrom (acc ++ piece) rest

/-- The cumulative texts produced while concatenating `pieces` onto `acc`:
the argument of each successive `onUpdate` invocation. -/
def cumTexts : String → List String → List String
  | _, [] => []
  | acc, piece :: rest => (acc ++ piece) :: cumTexts (acc ++ piece) rest

/-- The decoded content carried by one line, if any: the line must bear
the `data: ` marker and its payload must decode. -/
def lineContent (decode : String → Option String) (line : String) : Option String :=
  if jsStartsWith line "data: " then decode (line.drop 6) else none

/-- The decoded contents of a list of lines in order. -/
def lineContents (decode : String → Option String) (lines : List String) : List String :=
  lines.filterMap (lineContent decode)

/-- A concrete decoder used to instantiate stream theorems: models
`JSON.parse` restricted to simple JSON string literals (no escapes)
followed by an adapter extracting the parsed string itself; `none` where
`JSON.parse` throws on such payloads. -/
def strLitDecode (payload : String) : Option String :=
  match payload.toList with
  | c :: rest =>
    if c = '"' then
      if rest.getLast? == some '"'
          && rest.dropLast.all (fun d => !(d == '"') && !(d == '\\')) then
        some rest.dropLast.asString
      else none
    else none
  | [] => none

/-- A message as exchanged with a provider: `Message` from
`providers/base.ts` (the role union is kept as free text). -/
structure Msg where
  role : String
  content : String
deriving DecidableEq

/-- The fields of a parsed non-2xx response body that the error-assembly
code reads. An `Option` field is `some` exactly when the corresponding
JavaScript property access yields a truthy value (absent, `undefined`,
`null` and the empty string all map to `none`); `stringified` is
`JSON.stringify(errorData)`, always a nonempty string for a parsed body. -/
structure ErrorData where
  errorMessage : Option String
  message : Option String
  errorField : Option String
  choicesMessage : Option String
  errorStringified : Option String
  stringified : String

/-- What reading the body of a non-2xx response can yield:
`response.json()` succeeded, or the body was not a well-formed structured
payload.  In the latter case `response.json()` has already consumed
(disturbed) the body before its parse threw, so the recovery read
`response.text()` in the `catch` branch always rejects with a
body-already-read error — swallowed by the inner `catch` — or, for an
empty body, returns the empty string, which fails the `if (text)` guard;
either way the initial status-line message survives, so the unstructured
case carries no data. -/
inductive BodyOutcome
  | structured (d : ErrorData)
  | unstructured

/-- JavaScript `||` fall-through on string-or-absent values: an empty
string is falsy. -/
def jsTruthy : Option String → Option String
  | some s => if s = "" then none else some s
  | none => none

/-- The `.` character class of a JavaScript regexp without the `s` flag:
everything except line terminators (ASCII model). -/
def isDotChar (c : Char) : Bool := !(c == '\n') && !(c == '\r')

/-- `` `HTTP ${response.status}: ${response.statusText}` ``, the initial
error message of both `chatCompletion` implementations. -/
def statusLine (status : Nat) (statusText : String) : String :=
  "HTTP " ++ toString status ++ ": " ++ statusText

/-- JavaScript `toUpperCase` (ASCII model). -/
def jsToUpper (s : String) : String := (s.toList.map Char.toUpper).asString

/-- `split(/\s+/)` with a fuel argument making the recursion structural;
the fuel is set by `jsSplitWS` high enough never to run out. Splits on
maximal whitespace runs, keeping an empty piece at an end that starts or
finishes with whitespace, like the JavaScript original. -/
def splitWSFuel : Nat → List Char → List Char → List (List Char)
  | 0, cur, _ => [cur.reverse]
  | _ + 1, cur, [] => [cur.reverse]
  | fuel + 1, cur, c :: rest =>
    if isWS c then cur.reverse :: splitWSFuel fuel [] (rest.dropWhile isWS)
    else splitWSFuel fuel (c :: cur) rest

/-- JavaScript `factText.split(/\s+/)` on a character list. -/
def jsSplitWS (cs : List Char) : List (List Char) :=
  splitWSFuel (cs.length + 1) [] cs

/-- One step of the JSON string-literal grammar: parse `"..."` (no
escapes) returning the content and the remaining input. -/
def parseStrLit (cs : List Char) : Option (String × List Char) :=
  match cs with
  | c :: rest =>
    if c = '"' then
      let content := rest.takeWhile (fun d => !(d == '"') && !(d == '\\'))
      match rest.drop content.length with
      | d :: r2 => if d = '"' then some (content.asString, r2) else none
      | [] => none
    else none
  | [] => none

/-- The members of a flat JSON object after the opening brace: a
comma-separated sequence of `"key" : "value"` pairs followed by the
closing brace, whitespace allowed between tokens. Fueled to keep the
recursion structural. -/
def parsePairs : Nat → List Char → Option (List (String × String) × List Char)
  | 0, _ => none
  | fuel + 1, cs =>
    match parseStrLit cs with
    | none => none
    | some (k, r1) =>
      match r1.dropWhile isWS with
      | c :: r2 =>
        if c = ':' then
          match parseStrLit (r2.dropWhile isWS) with
          | none => none
          | some (v, r3) =>
            match r3.dropWhile isWS with
            | d :: r4 =>
              if d = ',' then
                match parsePairs fuel (r4.dropWhile isWS) with
                | some (ps, r5) => some ((k, v) :: ps, r5)
                | none => none
              else if d = rbrace then some ([(k, v)], r4)
              else none
            | [] => none
        else none
      | [] => none

/-- Executable model of the JavaScript `JSON.parse` builtin restricted to
flat objects with unescaped string keys and values: yields the key/value
pairs in order, and `none` exactly where `JSON.parse` throws on inputs of
this fragment (or the input falls outside the fragment). -/
def jsonParseFlat (s : String) : Option (List (String × String)) :=
  match s.toList.dropWhile isWS with
  | [] => none
  | c :: rest =>
    if c = lbrace then
      match rest.dropWhile isWS with
      | d :: r2 =>
        if d = rbrace then
          if r2.dropWhile isWS = [] then some [] else none
        else
          match parsePairs s.length (rest.dropWhile isWS) with
          | some (ps, r5) => if r5.dropWhile isWS = [] then some ps else none
          | none => none
      | [] => none
    else none

end Kioku

namespace BaseCloudProvider

open Kioku

/-- The error-message assembly of `BaseCloudProvider.chatCompletion` for a
non-2xx response: start from the HTTP status line; if the body parsed as
JSON, take the first truthy value of `errorData.error?.message`,
`errorData.message`, `errorData.error`, `errorData.choices?.[0]?.message`,
falling back to `JSON.stringify(errorData)` — each passed through
verbatim, at any length.  When the body is not structured JSON the status
line is kept: the `catch` branch's `response.text()` recovery (and with
it the `text.slice(0, 200)` truncation) is unreachable, because
`response.json()` has already consumed the body, so that read rejects or
yields the empty string and the `if (text)` guard fails. -/
def assembleError (status : Nat) (statusText : String) (body : BodyOutcome) : String :=
  match body with
  | .structured d =>
    ((((jsTruthy d.errorMessage).or (jsTruthy d.message)).or
        (jsTruthy d.errorField)).or (jsTruthy d.choicesMessage)).getD d.stringified
  | .unstructured => statusLine status statusText

/-- `BaseCloudProvider.chatCompletion`: on a non-ok response throw the
assembled error before any stream is read; on an ok response return the
value of `handleStream`. -/
def chatCompletion (ok : Bool) (status : Nat) (statusText : String) (body : BodyOutcome)
    (decode : String → Option String) (chunks : List String) :
    Except String (String × List String) :=
  if ok then .ok (handleStream decode chunks)
  else .error (assembleError status statusText body)

end BaseCloudProvider

namespace GeminiProvider

open Kioku

/-- The error-message assembly of `GeminiProvider.chatCompletion`: start
from the HTTP status line; if the body parsed as JSON take the first
truthy value of `data.error?.message`, `data.message`,
`JSON.stringify(data.error)`, else keep the status line (the `catch`
branch reads no raw text); the thrown message is prefixed with
`Gemini Error: `. -/
def assembleError (status : Nat) (statusText : String) (body : BodyOutcome) : String :=
  "Gemini Error: " ++
    (match body with
     | .structured d =>
       (((jsTruthy d.errorMessage).or (jsTruthy d.message)).or
           (jsTruthy d.errorStringified)).getD (statusLine status statusText)
     | .unstructured => statusLine status statusText)

end GeminiProvider

namespace LLMService

open Kioku

/-- The adapters `LLMService.loadProvider` can activate. -/
inductive Provider
  | groq (apiKey : String)
  | openai (apiKey : String)
  | anthropic (apiKey : String)
  | gemini (apiKey : String)
  | localProvider
deriving DecidableEq

/-- `LLMService.loadProvider`: read the stored provider type (defaulting
to `groq` when absent or falsy), read the type's API key; a non-local
type with no truthy key leaves the registry unconfigured (`none`), an
unknown type likewise; otherwise the adapter for the type is activated.
`store` models `localStorage.getItem` (`none` for a missing key). -/
def loadProvider (storedType : Option String) (store : String → Option String) :
    Option Provider :=
  let type := match storedType with
    | none => "groq"
    | some t => if t = "" then "groq" else t
  let apiKey := store (jsToUpper type ++ "_API_KEY")
  if type ≠ "local" ∧ apiKey.getD "" = "" then none
  else if type = "groq" then some (.groq (apiKey.getD ""))
  else if type = "openai" then some (.openai (apiKey.getD ""))
  else if type = "anthropic" then some (.anthropic (apiKey.getD ""))
  else if type = "gemini" then some (.gemini (apiKey.getD ""))
  else if type = "local" then some .localProvider
  else none

/-- `LLMService.chatCompletion`: with no active provider, throw the
configuration error without delegating; otherwise delegate to the active
adapter. The second component counts network requests issued. -/
def chatCompletion (active : Option Provider) (call : Provider → Except String String) :
    Except String String × Nat :=
  match active with
  | none => (.error "No AI provider configured. Please check your settings.", 0)
  | some p => (call p, 1)

/-- `chatHistory.map(m => role + ': ' + content).join('\n')` from
`LLMService.extractUserFacts`. -/
def historyText (chatHistory : List Msg) : String :=
  String.intercalate "\n" (chatHistory.map (fun m => m.role ++ ": " ++ m.content))

/-- The literal two-character text of an empty JSON object. -/
def emptyObjText : String := String.mk [lbrace, rbrace]

/-- The extraction prompt of `LLMService.extractUserFacts`. -/
def extractionPrompt (chatHistory : List Msg) : String :=
  "Analyze this conversation segment and extract NEW facts about the user.\nFocus on: preferences, personal info, habits, work context, relationships, goals.\nBe specific with keys (e.g., \"preferred_ide\" not just \"preference\").\nReturn ONLY a JSON object. If no new facts, return "
    ++ emptyObjText ++ ".\n\nConversation:\n" ++ historyText chatHistory

/-- The two-message request `extractUserFacts` sends to the provider. -/
def extractionMessages (chatHistory : List Msg) : List Msg :=
  [⟨"system", "Extract user facts as JSON. Output only valid JSON, no explanation."⟩,
   ⟨"user", extractionPrompt chatHistory⟩]

/-- Helper for the greedy `[\s\S]*` of the extraction regexp: the prefix
of the input up to and including its last closing brace (empty when there
is none). -/
def upToLastRbrace : List Char → List Char
  | [] => []
  | c :: rest =>
    if rest.any (fun d => d == rbrace) then c :: upToLastRbrace rest
    else if c = rbrace then [c] else []

/-- The match of the extraction regexp on a character list: the substring
starting at the first opening brace that has some closing brace after it,
extending greedily through the last closing brace of the input. -/
def scanFromLbrace : List Char → Option (List Char)
  | [] => none
  | c :: rest =>
    if c = lbrace ∧ rest.any (fun d => d == rbrace) then
      some (c :: upToLastRbrace rest)
    else scanFromLbrace rest

/-- `response.match(/\x7b[\s\S]*\x7d/)` from `extractUserFacts` (the
regexp written with its braces escaped): the first-to-last brace stretch
of the raw provider output, `none` when the regexp does not match. -/
def jsonScan (s : String) : Option String := (scanFromLbrace s.toList).map List.asString

/-- `LLMService.extractUserFacts`: send the extraction request; on a
provider error return no facts (the `catch` branch); otherwise scan the
response for the brace stretch (defaulting to the empty-object text),
parse it, and return the parsed pairs, or no facts when the parse throws.
`call` models the active provider's `chatCompletion`, `parse` the
`JSON.parse` builtin. -/
def extractUserFacts (call : List Msg → Except Unit String)
    (parse : String → Option (List (String × String))) (chatHistory : List Msg) :
    List (String × String) :=
  match call (extractionMessages chatHistory) with
  | .error _ => []
  | .ok response =>
    match parse ((jsonScan response).getD emptyObjText) with
    | some facts => facts
    | none => []

/-- Case-insensitive literal match: consume `w` from the head of the
input comparing lower-cased characters, as the `/i` flag does. -/
def dropLitCI : List Char → List Char → Option (List Char)
  | [], cs => some cs
  | _ :: _, [] => none
  | w :: ws, c :: cs => if Char.toLower c = Char.toLower w then dropLitCI ws cs else none

/-- Regexp-piece combinators for the two explicit-memory patterns of
`LLMService.extractExplicitMemory`. A piece maps the input to the list of
possible remainders in backtracking preference order (greedy first), the
order a JavaScript regexp engine explores alternatives in. -/
def litCI (w : String) (cs : List Char) : List (List Char) :=
  match dropLitCI w.toList cs with
  | some r => [r]
  | none => []

/-- `\s+`: one or more whitespace characters, longest first. -/
def wsPlus (cs : List Char) : List (List Char) :=
  let k := (cs.takeWhile Kioku.isWS).length
  (List.range k).map (fun j => cs.drop (k - j))

/-- Sequencing of pieces, preference order preserved lexicographically. -/
def seqM (f g : List Char → List (List Char)) (cs : List Char) : List (List Char) :=
  (f cs).flatMap g

/-- Ordered alternation `(?:f|g)`. -/
def altM (f g : List Char → List (List Char)) (cs : List Char) : List (List Char) :=
  f cs ++ g cs

/-- Greedy option `(?:f)?`: try matching first, then the empty match. -/
def optM (f : List Char → List (List Char)) (cs : List Char) : List (List Char) :=
  f cs ++ [cs]

/-- The part of the first explicit-memory pattern before the capture:
`(?:remember|don'?t forget|keep in mind|note)\s+(?:that\s+)?(?:i\s+|my\s+)?`
(the apostrophe written via its code point). -/
def pattern1 : List Char → List (List Char) :=
  seqM
    (altM (litCI "remember")
      (altM (seqM (litCI "don") (seqM (optM (litCI (String.mk [Char.ofNat 39]))) (litCI "t forget")))
        (altM (litCI "keep in mind") (litCI "note"))))
    (seqM wsPlus
      (seqM (optM (seqM (litCI "that") wsPlus))
        (optM (altM (seqM (litCI "i") wsPlus) (seqM (litCI "my") wsPlus)))))

/-- The part of the second explicit-memory pattern before the capture:
`(?:i\s+(?:prefer|like|love|hate|use|work with|am|have))\s+`. -/
def pattern2 : List Char → List (List Char) :=
  seqM (litCI "i")
    (seqM wsPlus
      (seqM
        (altM (litCI "prefer")
          (altM (litCI "like")
            (altM (litCI "love")
              (altM (litCI "hate")
                (altM (litCI "use")
                  (altM (litCI "work with") (altM (litCI "am") (litCI "have"))))))))
        wsPlus))

/-- The trailing `(.+)` capture: at the current remainder, a nonempty
greedy run of non-line-terminator characters. -/
def capturePlus (rem : List Char) : Option (List Char) :=
  match rem with
  | c :: _ => if Kioku.isDotChar c then some (rem.takeWhile Kioku.isDotChar) else none
  | [] => none

/-- The capture of a pattern matched at the start of the input: the first
remainder, in backtracking preference order, at which `(.+)` succeeds. -/
def firstCapture (pre : List Char → List (List Char)) (cs : List Char) : Option (List Char) :=
  ((pre cs).filterMap capturePlus).head?

/-- `text.match(pattern)`: try the pattern at each position left to
right and return the capture of the leftmost match, as an unanchored
JavaScript regexp search does. -/
def scanMatch (pre : List Char → List (List Char)) : List Char → Option (List Char)
  | [] => firstCapture pre []
  | c :: rest =>
    match firstCapture pre (c :: rest) with
    | some cap => some cap
    | none => scanMatch pre rest

/-- `match[1].trim().replace(/[.!?]$/, '')`: trim, then strip one
trailing sentence-punctuation character. -/
def stripEndPunct (cs : List Char) : List Char :=
  match cs.reverse with
  | c :: rest => if c = '.' || c = '!' || c = '?' then rest.reverse else cs
  | [] => cs

/-- A character kept by `replace(/[^a-z0-9_]/g, '')`. -/
def keyChar (c : Char) : Bool := ('a' ≤ c && c ≤ 'z') || c.isDigit || c == '_'

/-- `factText.split(/\s+/).slice(0, 3).join('_').toLowerCase().replace(/[^a-z0-9_]/g, '')`. -/
def deriveKey (factText : List Char) : List Char :=
  ((List.intercalate ['_'] ((Kioku.jsSplitWS factText).take 3)).map Char.toLower).filter keyChar

/-- Build the single fact from a capture: the value is the trimmed,
punctuation-stripped capture, the key its derived form with the
`user_preference` fallback when the derivation is empty. -/
def mkFact (cap : List Char) : String × String :=
  let factText := stripEndPunct (Kioku.jsTrim cap)
  let kw := deriveKey factText
  (if kw = [] then "user_preference" else kw.asString, factText.asString)

/-- `LLMService.extractExplicitMemory`: try the two patterns in order; the
first that matches produces the one fact; `none` when neither matches. -/
def extractExplicitMemory (text : String) : Option (String × String) :=
  ([pattern1, pattern2].findSome? (fun p => scanMatch p text.toList)).map mkFact

end LLMService

namespace SpecModel

open Kioku

/-- Depth counter for `firstBalancedObject`: consume input tracking brace
nesting until the depth returns to zero. -/
def balancedAux : List Char → Nat → List Char → Option (List Char)
  | [], _, _ => none
  | c :: rest, depth, acc =>
    if c = rbrace then
      if depth = 1 then some ((c :: acc).reverse)
      else balancedAux rest (depth - 1) (c :: acc)
    else if c = lbrace then balancedAux rest (depth + 1) (c :: acc)
    else balancedAux rest depth (c :: acc)

/-- Modelled from the spec's words (claim C4): the "first top-level JSON
object substring (from an opening brace to its matching closing brace)"
of the raw output — the substring starting at the first opening brace and
ending at the brace that balances it. Stated for comparison with the
source's `LLMService.jsonScan`. -/
def firstBalancedObject (s : String) : Option String :=
  (match s.toList with
    | [] => none
    | _ :: _ =>
      match s.toList.dropWhile (fun c => !(c == lbrace)) with
      | [] => none
      | c :: rest => balancedAux rest 1 [c]).map List.asString

end SpecModel

namespace ChatView

open Kioku

/-- `db.ai_memory.put`: the fact store is keyed by `key` with upsert
semantics; a later write under the same key replaces the earlier value. -/
def putFact (memory : List (String × String)) (key value : String) :
    List (String × String) :=
  memory.filter (fun kv => kv.1 ≠ key) ++ [(key, value)]

/-- `processRollingSynthesis` from the chat view: read the conversation's
`lastSynthesizedMsgCount` (`0` when absent), and when at least 6 messages
arrived since, extract facts from the unprocessed tail, upsert each pair,
and set the checkpoint to the new total count. Returns the fact store,
the checkpoint, and the list of extraction calls issued (with their
argument). `extract` models `llmService.extractUserFacts`. -/
def processRollingSynthesis (extract : List Msg → List (String × String))
    (conv : Option Nat) (allMessages : List Msg) (msgCount : Nat)
    (memory : List (String × String)) :
    List (String × String) × Option Nat × List (List Msg) :=
  let lastSynthesized := conv.getD 0
  if 6 ≤ msgCount - lastSynthesized then
    let messagesToProcess := allMessages.drop lastSynthesized
    if 0 < messagesToProcess.length then
      let facts := extract messagesToProcess
      (facts.foldl (fun m kv => putFact m kv.1 kv.2) memory, some msgCount,
        [messagesToProcess])
    else (memory, conv, [])
  else (memory, conv, [])

/-- Anchored literal match helper for the reminder regexp. -/
def expectLit (w : List Char) (cs : List Char) : Option (List Char) :=
  if w.isPrefixOf cs then some (cs.drop w.length) else none

/-- `n, n-1, ..., 0`: the order a greedy `(.*)` tries capture lengths in. -/
def descRange (n : Nat) : List Nat := (List.range (n + 1)).reverse

/-- The second `(.*)` of the reminder regexp and the closing `"]`: the
longest run of non-line-terminator characters followed by `"` `]`. -/
def reminderGroup2 (cs : List Char) : Option (List Char) :=
  (descRange (cs.takeWhile isDotChar).length).findSome? (fun j =>
    match expectLit ['"', ']'] (cs.drop j) with
    | some _ => some (cs.take j)
    | none => none)

/-- From the start of the first capture: greedy `(.*)`, then `"`, `\s*`,
`AT`, `\s*`, `"`, then the second capture and the closing `"]`. -/
def reminderFromGroup1 (cs : List Char) : Option (List Char × List Char) :=
  (descRange (cs.takeWhile isDotChar).length).findSome? (fun k =>
    match expectLit ['"'] (cs.drop k) with
    | none => none
    | some r2 =>
      match expectLit ['A', 'T'] (r2.dropWhile isWS) with
      | none => none
      | some r4 =>
        match expectLit ['"'] (r4.dropWhile isWS) with
        | none => none
        | some r6 => (reminderGroup2 r6).map (fun g2 => (cs.take k, g2)))

/-- The reminder regexp anchored at the current position: the literal
tag opening, `\s*`, `"`, then the two captures. -/
def matchReminderAt (cs : List Char) : Option (List Char × List Char) :=
  match expectLit "[REMINDER:".toList cs with
  | none => none
  | some r1 =>
    match expectLit ['"'] (r1.dropWhile isWS) with
    | none => none
    | some r3 => reminderFromGroup1 r3

/-- `assistantText.match(/\[REMINDER:\s*"(.*)"\s*AT\s*"(.*)"\]/)`: the
captures of the leftmost match. -/
def scanReminder : List Char → Option (List Char × List Char)
  | [] => none
  | c :: rest =>
    match matchReminderAt (c :: rest) with
    | some r => some r
    | none => scanReminder rest

/-- The reminder-directive block of `handleSend`: scan the completed
assistant text for the tag; on a match parse the timestamp text with
`new Date(...)` (modelled by `dateParse`, `none` where `getTime()` is
`NaN`); only a parseable timestamp yields a persisted directive, an
unparseable one is discarded silently. -/
def parseReminder (dateParse : String → Option Int) (assistantText : String) :
    Option (String × Int) :=
  match scanReminder assistantText.toList with
  | none => none
  | some (g1, g2) =>
    match dateParse g2.asString with
    | some dueAt => some (g1.asString, dueAt)
    | none => none

end ChatView

/-! Further definitions are inserted above this point; the remainder of
the file states and proves the theorems. -/

namespace Kioku

theorem joinFrom_append (l₁ : List String) : ∀ (acc : String) (l₂ : List String),
    joinFrom acc (l₁ ++ l₂) = joinFrom (joinFrom acc l₁) l₂ := by
  induction l₁ with
  | nil => intro acc l₂; rfl
  | cons p rest ih => intro acc l₂; simpa [joinFrom] using ih (acc ++ p) l₂

theorem cumTexts_append (l₁ : List String) : ∀ (acc : String) (l₂ : List String),
    cumTexts acc (l₁ ++ l₂) = cumTexts acc l₁ ++ cumTexts (joinFrom acc l₁) l₂ := by
  induction l₁ with
  | nil => intro acc l₂; rfl
  | cons p rest ih =>
    intro acc l₂
    simp only [List.cons_append, cumTexts, joinFrom, List.cons_append]
    exact congrArg (List.cons (acc ++ p)) (ih (acc ++ p) l₂)

theorem joinFrom_getLastD : ∀ (cs : List String) (acc : String),
    joinFrom acc cs = (cumTexts acc cs).getLastD acc
  | [], _ => rfl
  | p :: ps, acc => by
    simp only [joinFrom, cumTexts]
    rw [joinFrom_getLastD ps (acc ++ p)]
    cases h : cumTexts (acc ++ p) ps <;> simp [List.getLastD]

theorem chain_length_cumTexts (pieces : List String) :
    ∀ acc : String,
      List.Chain' (fun a b : String => a.length ≤ b.length) (acc :: cumTexts acc pieces) := by
  induction pieces with
  | nil => intro acc; simp [cumTexts]
  | cons p rest ih =>
    intro acc
    simp only [cumTexts]
    refine List.Chain'.cons ?_ (ih (acc ++ p))
    simp [String.length_append]

end Kioku

namespace BaseCloudProvider

open Kioku

theorem processLines_spec (decode : String → Option String) :
    ∀ (lines : List String) (acc : String) (cbs : List String),
      (∀ l ∈ lines, containsDone l = false) →
      processLines decode lines acc cbs
        = (joinFrom acc (lineContents decode lines),
           cbs ++ cumTexts acc (lineContents decode lines))
  | [], acc, cbs, _ => by
    simp [processLines, lineContents, joinFrom, cumTexts]
  | line :: rest, acc, cbs, h => by
    have hd : containsDone line = false := h line (by simp)
    have hrest : ∀ l ∈ rest, containsDone l = false := fun l hl => h l (by simp [hl])
    cases hs : jsStartsWith line "data: " with
    | true =>
      cases hdec : decode (line.drop 6) with
      | some c =>
        rw [show processLines decode (line :: rest) acc cbs
              = processLines decode rest (acc ++ c) (cbs ++ [acc ++ c]) by
            simp [processLines, hd, hs, hdec]]
        rw [processLines_spec decode rest (acc ++ c) (cbs ++ [acc ++ c]) hrest]
        simp [lineContents, lineContent, hs, hdec, joinFrom, cumTexts]
      | none =>
        rw [show processLines decode (line :: rest) acc cbs
              = processLines decode rest acc cbs by simp [processLines, hd, hs, hdec]]
        rw [processLines_spec decode rest acc cbs hrest]
        simp [lineContents, lineContent, hs, hdec]
    | false =>
      rw [show processLines decode (line :: rest) acc cbs
            = processLines decode rest acc cbs by simp [processLines, hd, hs]]
      rw [processLines_spec decode rest acc cbs hrest]
      simp [lineContents, lineContent, hs]

theorem handleStream_fold (decode : String → Option String) :
    ∀ (chunks : List String) (acc : String) (cbs : List String),
      (∀ l ∈ chunks.flatMap splitLines, containsDone l = false) →
      chunks.foldl (fun st chunk => processLines decode (splitLines chunk) st.1 st.2) (acc, cbs)
        = (joinFrom acc (lineContents decode (chunks.flatMap splitLines)),
           cbs ++ cumTexts acc (lineContents decode (chunks.flatMap splitLines)))
  | [], acc, cbs, _ => by simp [lineContents, joinFrom, cumTexts]
  | chunk :: rest, acc, cbs, h => by
    have hchunk : ∀ l ∈ splitLines chunk, containsDone l = false := by
      intro l hl; exact h l (by simp [List.mem_flatMap]; exact Or.inl hl)
    have hrest : ∀ l ∈ rest.flatMap splitLines, containsDone l = false := by
      intro l hl; refine h l ?_
      simp only [List.flatMap_cons, List.mem_append]; exact Or.inr hl
    simp only [List.foldl_cons]
    rw [processLines_spec decode (splitLines chunk) acc cbs hchunk]
    rw [handleStream_fold decode rest _ _ hrest]
    simp only [List.flatMap_cons, lineContents, List.filterMap_append]
    rw [joinFrom_append, cumTexts_append]
    simp [lineContents, List.append_assoc]

theorem processLines_last (decode : String → Option String) :
    ∀ (lines : List String) (acc : String) (cbs : List String),
      acc = cbs.getLastD "" →
      (processLines decode lines acc cbs).1
        = (processLines decode lines acc cbs).2.getLastD "" := by
  intro lines
  induction lines with
  | nil => intro acc cbs h; simpa [processLines] using h
  | cons line rest ih =>
    intro acc cbs h
    cases hd : containsDone line with
    | true => simpa [processLines, hd] using h
    | false =>
      cases hs : jsStartsWith line "data: " with
      | true =>
        cases hdec : decode (line.drop 6) with
        | some c =>
          rw [show processLines decode (line :: rest) acc cbs
                = processLines decode rest (acc ++ c) (cbs ++ [acc ++ c]) by
              simp [processLines, hd, hs, hdec]]
          exact ih (acc ++ c) (cbs ++ [acc ++ c]) (by simp [List.getLastD_concat])
        | none =>
          rw [show processLines decode (line :: rest) acc cbs
                = processLines decode rest acc cbs by simp [processLines, hd, hs, hdec]]
          exact ih acc cbs h
      | false =>
        rw [show processLines decode (line :: rest) acc cbs
              = processLines decode rest acc cbs by simp [processLines, hd, hs]]
        exact ih acc cbs h

theorem handleStream_last (decode : String → Option String) (chunks : List String) :
    (handleStream decode chunks).1 = (handleStream decode chunks).2.getLastD "" := by
  unfold handleStream
  suffices h : ∀ (cs : List String) (st : String × List String), st.1 = st.2.getLastD "" →
      (cs.foldl (fun st chunk => processLines decode (splitLines chunk) st.1 st.2) st).1
        = (cs.foldl (fun st chunk => processLines decode (splitLines chunk) st.1 st.2) st).2.getLastD "" by
    exact h chunks ("", []) rfl
  intro cs
  induction cs with
  | nil => intro st h; exact h
  | cons c rest ih =>
    intro st h
    simp only [List.foldl_cons]
    exact ih _ (processLines_last decode (splitLines c) st.1 st.2 h)

end BaseCloudProvider

namespace AnthropicProvider

open Kioku

theorem anthropicProcessLines_spec (decode : String → Option String) :
    ∀ (lines : List String) (acc : String) (cbs : List String),
      processLines decode lines acc cbs
        = (joinFrom acc (lineContents decode lines),
           cbs ++ cumTexts acc (lineContents decode lines))
  | [], acc, cbs => by
    simp [processLines, lineContents, joinFrom, cumTexts]
  | line :: rest, acc, cbs => by
    cases hs : jsStartsWith line "data: " with
    | true =>
      cases hdec : decode (line.drop 6) with
      | some c =>
        rw [show processLines decode (line :: rest) acc cbs
              = processLines decode rest (acc ++ c) (cbs ++ [acc ++ c]) by
            simp [processLines, hs, hdec]]
        rw [anthropicProcessLines_spec decode rest (acc ++ c) (cbs ++ [acc ++ c])]
        simp [lineContents, lineContent, hs, hdec, joinFrom, cumTexts]
      | none =>
        rw [show processLines decode (line :: rest) acc cbs
              = processLines decode rest acc cbs by simp [processLines, hs, hdec]]
        rw [anthropicProcessLines_spec decode rest acc cbs]
        simp [lineContents, lineContent, hs, hdec]
    | false =>
      rw [show processLines decode (line :: rest) acc cbs
            = processLines decode rest acc cbs by simp [processLines, hs]]
      rw [anthropicProcessLines_spec decode rest acc cbs]
      simp [lineContents, lineContent, hs]

theorem anthropicHandleStream_fold (decode : String → Option String) :
    ∀ (chunks : List String) (acc : String) (cbs : List String),
      chunks.foldl (fun st chunk => processLines decode (jsSplitNewline chunk) st.1 st.2) (acc, cbs)
        = (joinFrom acc (lineContents decode (chunks.flatMap jsSplitNewline)),
           cbs ++ cumTexts acc (lineContents decode (chunks.flatMap jsSplitNewline)))
  | [], acc, cbs => by simp [lineContents, joinFrom, cumTexts]
  | chunk :: rest, acc, cbs => by
    simp only [List.foldl_cons]
    rw [anthropicProcessLines_spec decode (jsSplitNewline chunk) acc cbs]
    rw [anthropicHandleStream_fold decode rest _ _]
    simp only [List.flatMap_cons, lineContents, List.filterMap_append]
    rw [joinFrom_append, cumTexts_append]
    simp [lineContents, List.append_assoc]

theorem anthropicProcessLines_last (decode : String → Option String) :
    ∀ (lines : List String) (acc : String) (cbs : List String),
      acc = cbs.getLastD "" →
      (processLines decode lines acc cbs).1
        = (processLines decode lines acc cbs).2.getLastD "" := by
  intro lines
  induction lines with
  | nil => intro acc cbs h; simpa [processLines] using h
  | cons line rest ih =>
    intro acc cbs h
    cases hs : jsStartsWith line "data: " with
    | true =>
      cases hdec : decode (line.drop 6) with
      | some c =>
        rw [show processLines decode (line :: rest) acc cbs
              = processLines decode rest (acc ++ c) (cbs ++ [acc ++ c]) by
            simp [processLines, hs, hdec]]
        exact ih (acc ++ c) (cbs ++ [acc ++ c]) (by simp [List.getLastD_concat])
      | none =>
        rw [show processLines decode (line :: rest) acc cbs
              = processLines decode rest acc cbs by simp [processLines, hs, hdec]]
        exact ih acc cbs h
    | false =>
      rw [show processLines decode (line :: rest) acc cbs
            = processLines decode rest acc cbs by simp [processLines, hs]]
      exact ih acc cbs h

theorem anthropicHandleStream_last (decode : String → Option String) (chunks : List String) :
    (handleStream decode chunks).1 = (handleStream decode chunks).2.getLastD "" := by
  unfold handleStream
  suffices h : ∀ (cs : List String) (st : String × List String), st.1 = st.2.getLastD "" →
      (cs.foldl (fun st chunk => processLines decode (jsSplitNewline chunk) st.1 st.2) st).1
        = (cs.foldl (fun st chunk => processLines decode (jsSplitNewline chunk) st.1 st.2) st).2.getLastD "" by
    exact h chunks ("", []) rfl
  intro cs
  induction cs with
  | nil => intro st h; exact h
  | cons c rest ih =>
    intro st h
    simp only [List.foldl_cons]
    exact ih _ (anthropicProcessLines_last decode (jsSplitNewline c) st.1 st.2 h)

end AnthropicProvider

namespace LocalProvider

open Kioku

theorem chatCompletion_spec (contents : List String) :
    chatCompletion contents = (joinFrom "" contents, cumTexts "" contents) := by
  unfold chatCompletion
  suffices h : ∀ (cs : List String) (acc : String) (cbs : List String),
      cs.foldl (fun st content => (st.1 ++ content, st.2 ++ [st.1 ++ content])) (acc, cbs)
        = (joinFrom acc cs, cbs ++ cumTexts acc cs) by
    simpa using h contents "" []
  intro cs
  induction cs with
  | nil => intro acc cbs; simp [joinFrom, cumTexts]
  | cons c rest ih =>
    intro acc cbs
    simp only [List.foldl_cons]
    rw [ih (acc ++ c) (cbs ++ [acc ++ c])]
    simp [joinFrom, cumTexts]

theorem chatCompletion_last (contents : List String) :
    (chatCompletion contents).1 = (chatCompletion contents).2.getLastD "" := by
  rw [chatCompletion_spec]
  exact joinFrom_getLastD contents ""

end LocalProvider

namespace BaseCloudProvider

open Kioku

theorem processLines_sentinel (decode : String → Option String) :
    ∀ (pre : List String) (d : String) (post : List String) (acc : String) (cbs : List String),
      (∀ l ∈ pre, containsDone l = false) → containsDone d = true →
      processLines decode (pre ++ d :: post) acc cbs = processLines decode pre acc cbs
  | [], d, post, acc, cbs, _, hd => by
    simp [processLines, hd]
  | line :: pre, d, post, acc, cbs, hpre, hd => by
    have hl : containsDone line = false := hpre line (by simp)
    have hrest : ∀ l ∈ pre, containsDone l = false := fun l hl' => hpre l (by simp [hl'])
    have step : ∀ ls acc' cbs', processLines decode (line :: ls) acc' cbs'
        = match lineContent decode line with
          | some c => processLines decode ls (acc' ++ c) (cbs' ++ [acc' ++ c])
          | none => processLines decode ls acc' cbs' := by
      intro ls acc' cbs'
      cases hs : jsStartsWith line "data: " with
      | true =>
        cases hdec : decode (line.drop 6) with
        | some c => simp [processLines, lineContent, hl, hs, hdec]
        | none => simp [processLines, lineContent, hl, hs, hdec]
      | false => simp [processLines, lineContent, hl, hs]
    simp only [List.cons_append]
    rw [step (pre ++ d :: post) acc cbs, step pre acc cbs]
    cases hc : lineContent decode line with
    | some c =>
      exact processLines_sentinel decode pre d post (acc ++ c) (cbs ++ [acc ++ c]) hrest hd
    | none =>
      exact processLines_sentinel decode pre d post acc cbs hrest hd

end BaseCloudProvider

/-- Claim C2: for every sequence of stream chunks whose data lines carry
parseable payloads (and no line carries the termination sentinel), the
final text returned by the uniform-stream normalizer
(`BaseCloudProvider.handleStream`) and by the Anthropic variant equals
the concatenation of the decoded per-line contents in arrival order, the
caller-supplied callback is invoked with the cumulative text so far (not
a delta), and the callback arguments' lengths are non-decreasing across
successive invocations. -/
theorem c2_cumulative_growth_contract
    (decodeB decodeA : String → Option String) (chunksB chunksA : List String)
    (hB : ∀ l ∈ chunksB.flatMap BaseCloudProvider.splitLines,
        Kioku.containsDone l = false ∧
          (Kioku.jsStartsWith l "data: " = true → (decodeB (l.drop 6)).isSome = true))
    (hA : ∀ l ∈ chunksA.flatMap Kioku.jsSplitNewline,
        Kioku.jsStartsWith l "data: " = true → (decodeA (l.drop 6)).isSome = true) :
    (BaseCloudProvider.handleStream decodeB chunksB).1
        = Kioku.joinFrom ""
            (Kioku.lineContents decodeB (chunksB.flatMap BaseCloudProvider.splitLines))
  ∧ (BaseCloudProvider.handleStream decodeB chunksB).2
        = Kioku.cumTexts ""
            (Kioku.lineContents decodeB (chunksB.flatMap BaseCloudProvider.splitLines))
  ∧ List.Chain' (fun a b : String => a.length ≤ b.length)
        (BaseCloudProvider.handleStream decodeB chunksB).2
  ∧ (AnthropicProvider.handleStream decodeA chunksA).1
        = Kioku.joinFrom ""
            (Kioku.lineContents decodeA (chunksA.flatMap Kioku.jsSplitNewline))
  ∧ (AnthropicProvider.handleStream decodeA chunksA).2
        = Kioku.cumTexts ""
            (Kioku.lineContents decodeA (chunksA.flatMap Kioku.jsSplitNewline))
  ∧ List.Chain' (fun a b : String => a.length ≤ b.length)
        (AnthropicProvider.handleStream decodeA chunksA).2 := by
  have hBdone : ∀ l ∈ chunksB.flatMap BaseCloudProvider.splitLines,
      Kioku.containsDone l = false := fun l hl => (hB l hl).1
  have eB := BaseCloudProvider.handleStream_fold decodeB chunksB "" [] hBdone
  have eA := AnthropicProvider.anthropicHandleStream_fold decodeA chunksA "" []
  have hB1 : (BaseCloudProvider.handleStream decodeB chunksB)
      = (Kioku.joinFrom ""
            (Kioku.lineContents decodeB (chunksB.flatMap BaseCloudProvider.splitLines)),
         Kioku.cumTexts ""
            (Kioku.lineContents decodeB (chunksB.flatMap BaseCloudProvider.splitLines))) := by
    unfold BaseCloudProvider.handleStream
    rw [eB]; simp
  have hA1 : (AnthropicProvider.handleStream decodeA chunksA)
      = (Kioku.joinFrom ""
            (Kioku.lineContents decodeA (chunksA.flatMap Kioku.jsSplitNewline)),
         Kioku.cumTexts ""
            (Kioku.lineContents decodeA (chunksA.flatMap Kioku.jsSplitNewline))) := by
    unfold AnthropicProvider.handleStream
    rw [eA]; simp
  refine ⟨by rw [hB1], by rw [hB1], ?_, by rw [hA1], by rw [hA1], ?_⟩
  · rw [hB1]
    exact (Kioku.chain_length_cumTexts _ "").tail
  · rw [hA1]
    exact (Kioku.chain_length_cumTexts _ "").tail

/-- Witness for C2 at a concrete three-fragment stream: the hypotheses
hold and the normalizers produce the concatenation with cumulative
callbacks. -/
theorem c2_cumulative_growth_contract_witness :
    BaseCloudProvider.handleStream Kioku.strLitDecode
        ["data: \"He\"\ndata: \"llo\"", "data: \" world\""]
      = ("Hello world", ["He", "Hello", "Hello world"])
  ∧ AnthropicProvider.handleStream Kioku.strLitDecode ["data: \"Hi\"", "data: \"!\""]
      = ("Hi!", ["Hi", "Hi!"]) := by
  obtain ⟨h1, h2, -, h4, h5, -⟩ := c2_cumulative_growth_contract
    Kioku.strLitDecode Kioku.strLitDecode
    ["data: \"He\"\ndata: \"llo\"", "data: \" world\""] ["data: \"Hi\"", "data: \"!\""]
    (by decide) (by decide)
  exact ⟨Prod.ext (h1.trans (by decide)) (h2.trans (by decide)),
    Prod.ext (h4.trans (by decide)) (h5.trans (by decide))⟩

/-- Claim C5 counterexample: with the sentinel arriving mid-chunk
followed by a later chunk, the normalizer appends the later chunk's
content (`"c"`) and invokes a further callback, so the cumulative text is
`"ac"`, not the `"a"` the claim requires once the sentinel was seen. -/
theorem c5_counterexample :
    BaseCloudProvider.handleStream Kioku.strLitDecode
        ["data: \"a\"\n[DONE]\ndata: \"b\"", "data: \"c\""] = ("ac", ["a", "ac"])
  ∧ ("ac" : String) ≠ "a" := by
  exact ⟨by decide, by decide⟩

/-- Claim C5 (amended): a line containing the termination sentinel stops
the processing of the remaining lines of the *current* chunk only (no
error); reading resumes with the next chunk, whose data lines are still
decoded, appended and reported through the callback. -/
theorem c5_sentinel_skips_current_chunk
    (decode : String → Option String) (pre post : List String) (d : String)
    (acc : String) (cbs : List String)
    (hpre : ∀ l ∈ pre, Kioku.containsDone l = false)
    (hd : Kioku.containsDone d = true) :
    BaseCloudProvider.processLines decode (pre ++ d :: post) acc cbs
      = BaseCloudProvider.processLines decode pre acc cbs
  ∧ ∀ chunk rest, BaseCloudProvider.handleStream decode (chunk :: rest)
      = rest.foldl
          (fun st c => BaseCloudProvider.processLines decode (BaseCloudProvider.splitLines c) st.1 st.2)
          (BaseCloudProvider.processLines decode (BaseCloudProvider.splitLines chunk) "" []) := by
  exact ⟨BaseCloudProvider.processLines_sentinel decode pre d post acc cbs hpre hd,
    fun chunk rest => rfl⟩

/-- Witness for the amended C5: in a concrete chunk the line after the
sentinel is dropped, and the next chunk is processed from the state the
first chunk left. -/
theorem c5_sentinel_skips_current_chunk_witness :
    BaseCloudProvider.processLines Kioku.strLitDecode
        ["data: \"a\"", "[DONE]", "data: \"b\""] "" []
      = BaseCloudProvider.processLines Kioku.strLitDecode ["data: \"a\""] "" []
  ∧ BaseCloudProvider.handleStream Kioku.strLitDecode
        ["data: \"a\"\n[DONE]\ndata: \"b\"", "data: \"c\""]
      = List.foldl
          (fun st c => BaseCloudProvider.processLines Kioku.strLitDecode (BaseCloudProvider.splitLines c) st.1 st.2)
          (BaseCloudProvider.processLines Kioku.strLitDecode
            (BaseCloudProvider.splitLines "data: \"a\"\n[DONE]\ndata: \"b\"") "" [])
          ["data: \"c\""] := by
  obtain ⟨h1, h2⟩ := c5_sentinel_skips_current_chunk Kioku.strLitDecode
    ["data: \"a\""] ["data: \"b\""] "[DONE]" "" [] (by decide) (by decide)
  exact ⟨h1, h2 "data: \"a\"\n[DONE]\ndata: \"b\"" ["data: \"c\""]⟩

/-- Claim C10: for every chunk sequence, the final string resolved by
each stream handler (and by `chatCompletion` on the success path) equals
the cumulative text passed to the last callback invocation, and equals
the empty string when the callback is never invoked. -/
theorem c10_final_equals_last_callback
    (decodeB decodeA : String → Option String)
    (chunksB chunksA contents : List String)
    (status : Nat) (statusText : String) (body : Kioku.BodyOutcome) :
    (BaseCloudProvider.handleStream decodeB chunksB).1
        = (BaseCloudProvider.handleStream decodeB chunksB).2.getLastD ""
  ∧ ((BaseCloudProvider.handleStream decodeB chunksB).2 = []
        → (BaseCloudProvider.handleStream decodeB chunksB).1 = "")
  ∧ (AnthropicProvider.handleStream decodeA chunksA).1
        = (AnthropicProvider.handleStream decodeA chunksA).2.getLastD ""
  ∧ ((AnthropicProvider.handleStream decodeA chunksA).2 = []
        → (AnthropicProvider.handleStream decodeA chunksA).1 = "")
  ∧ (LocalProvider.chatCompletion contents).1
        = (LocalProvider.chatCompletion contents).2.getLastD ""
  ∧ ((LocalProvider.chatCompletion contents).2 = []
        → (LocalProvider.chatCompletion contents).1 = "")
  ∧ BaseCloudProvider.chatCompletion true status statusText body decodeB chunksB
        = .ok (BaseCloudProvider.handleStream decodeB chunksB) := by
  refine ⟨BaseCloudProvider.handleStream_last decodeB chunksB, ?_,
    AnthropicProvider.anthropicHandleStream_last decodeA chunksA, ?_,
    LocalProvider.chatCompletion_last contents, ?_, rfl⟩
  · intro h
    rw [BaseCloudProvider.handleStream_last decodeB chunksB, h]
    rfl
  · intro h
    rw [AnthropicProvider.anthropicHandleStream_last decodeA chunksA, h]
    rfl
  · intro h
    rw [LocalProvider.chatCompletion_last contents, h]
    rfl

/-- Witness for C10: a stream with no extractable content resolves to the
empty string for each of the three handlers. -/
theorem c10_final_equals_last_callback_witness :
    (BaseCloudProvider.handleStream (fun _ => none) ["x"]).1 = ""
  ∧ (AnthropicProvider.handleStream (fun _ => none) ["x"]).1 = ""
  ∧ (LocalProvider.chatCompletion []).1 = "" := by
  obtain ⟨-, h2, -, h4, -, h6, -⟩ := c10_final_equals_last_callback
    (fun _ => none) (fun _ => none) ["x"] ["x"] [] 200 "OK" Kioku.BodyOutcome.unstructured
  exact ⟨h2 (by decide), h4 (by decide), h6 (by decide)⟩

namespace Kioku

theorem containsSub_append_mid (pre mid post : List Char) :
    containsSub (pre ++ (mid ++ post)) mid = true := by
  unfold containsSub
  rw [List.any_eq_true]
  refine ⟨mid ++ post, ?_, ?_⟩
  · exact (List.mem_tails _ _).2 (List.suffix_append pre (mid ++ post))
  · exact List.isPrefixOf_iff_prefix.2 (List.prefix_append mid post)

theorem strIncludes_mid (pre mid post : String) :
    strIncludes (pre ++ (mid ++ post)) mid = true := by
  unfold strIncludes
  rw [show (pre ++ (mid ++ post)).toList = pre.toList ++ (mid.toList ++ post.toList) from rfl]
  exact containsSub_append_mid pre.toList mid.toList post.toList

theorem statusLine_includes_status (status : Nat) (statusText : String) :
    strIncludes (statusLine status statusText) (toString status) = true := by
  unfold statusLine
  rw [String.append_assoc, String.append_assoc]
  exact strIncludes_mid "HTTP " (toString status) (": " ++ statusText)

end Kioku

/-- Claim C6 counterexample: for a non-2xx response (status 500) whose
structured body carries a 300-character error field, the thrown message
is that field verbatim — 300 characters long, exceeding the source's one
truncation bound of 200 characters (which lives only in the unreachable
raw-text recovery branch) — so the message is not truncated to a bounded
length: it grows with the body. -/
theorem c6_counterexample :
    BaseCloudProvider.chatCompletion false 500 "Server Error"
        (Kioku.BodyOutcome.structured
          ⟨some (String.mk (List.replicate 300 'a')), none, none, none, none, "st"⟩)
        (fun _ => none) []
      = .error (String.mk (List.replicate 300 'a'))
  ∧ (String.mk (List.replicate 300 'a')).length = 300
  ∧ ¬ ((String.mk (List.replicate 300 'a')).length ≤ 200) := by
  exact ⟨rfl, by decide, by decide⟩

/-- Claim C6 (amended): on every non-2xx response `chatCompletion` raises
the assembled error without consuming a stream.  The message is taken, in
priority order, from the structured error field, then the generic message
field, then the remaining structured fields, falling back to the
stringified body — each passed through verbatim, with no truncation (the
message keeps the field's full length; the source's 200-character
`slice` sits in the raw-text recovery of the `catch` branch, which is
unreachable because `response.json()` has already consumed the body).
When the body is not a well-formed structured payload the message is the
raw status line and so contains the HTTP status; the Gemini adapter's
message likewise contains the status whenever its body parse fails. -/
theorem c6_non2xx_error_assembly
    (status : Nat) (statusText : String) (d : Kioku.ErrorData)
    (body : Kioku.BodyOutcome) (decode : String → Option String) (chunks : List String) :
    (BaseCloudProvider.chatCompletion false status statusText body decode chunks
        = .error (BaseCloudProvider.assembleError status statusText body))
  ∧ (∀ m, Kioku.jsTruthy d.errorMessage = some m →
      BaseCloudProvider.assembleError status statusText (.structured d) = m
        ∧ (BaseCloudProvider.assembleError status statusText (.structured d)).length
            = m.length)
  ∧ (Kioku.jsTruthy d.errorMessage = none → ∀ m, Kioku.jsTruthy d.message = some m →
      BaseCloudProvider.assembleError status statusText (.structured d) = m)
  ∧ (Kioku.jsTruthy d.errorMessage = none → Kioku.jsTruthy d.message = none →
      Kioku.jsTruthy d.errorField = none → Kioku.jsTruthy d.choicesMessage = none →
      BaseCloudProvider.assembleError status statusText (.structured d) = d.stringified)
  ∧ Kioku.strIncludes (BaseCloudProvider.assembleError status statusText .unstructured)
        (toString status) = true
  ∧ Kioku.strIncludes (GeminiProvider.assembleError status statusText .unstructured)
        (toString status) = true := by
  refine ⟨rfl, ?_, ?_, ?_, ?_, ?_⟩
  · intro m hm
    have he : BaseCloudProvider.assembleError status statusText (.structured d) = m := by
      simp [BaseCloudProvider.assembleError, Option.or, hm]
    exact ⟨he, by rw [he]⟩
  · intro h1 m hm
    simp [BaseCloudProvider.assembleError, Option.or, h1, hm]
  · intro h1 h2 h3 h4
    simp [BaseCloudProvider.assembleError, Option.or, h1, h2, h3, h4]
  · exact Kioku.statusLine_includes_status status statusText
  · rw [show GeminiProvider.assembleError status statusText .unstructured
        = "Gemini Error: " ++ Kioku.statusLine status statusText from rfl]
    unfold Kioku.statusLine
    rw [String.append_assoc, String.append_assoc, ← String.append_assoc]
    exact Kioku.strIncludes_mid ("Gemini Error: " ++ "HTTP ") (toString status)
      (": " ++ statusText)

/-- Witness for the amended C6: a concrete structured body takes the
structured error field verbatim (length preserved), and concrete
unstructured bodies yield status-bearing messages from both adapters. -/
theorem c6_non2xx_error_assembly_witness :
    BaseCloudProvider.assembleError 500 "Server Error"
        (Kioku.BodyOutcome.structured
          ⟨some "boom", some "generic", none, none, none, "st"⟩) = "boom"
  ∧ Kioku.strIncludes
      (BaseCloudProvider.assembleError 404 "Not Found" Kioku.BodyOutcome.unstructured)
      "404" = true
  ∧ Kioku.strIncludes
      (GeminiProvider.assembleError 404 "Not Found" Kioku.BodyOutcome.unstructured)
      "404" = true := by
  obtain ⟨-, h2, -, -, -, -⟩ := c6_non2xx_error_assembly 500 "Server Error"
    ⟨some "boom", some "generic", none, none, none, "st"⟩
    Kioku.BodyOutcome.unstructured (fun _ => none) []
  obtain ⟨-, -, -, -, h5, h6⟩ := c6_non2xx_error_assembly 404 "Not Found"
    ⟨none, none, none, none, none, "st"⟩ Kioku.BodyOutcome.unstructured (fun _ => none) []
  refine ⟨(h2 "boom" (by decide)).1, ?_, ?_⟩
  · rw [show ("404" : String) = toString (404 : Nat) by decide]
    exact h5
  · rw [show ("404" : String) = toString (404 : Nat) by decide]
    exact h6

/-- Claim C9: a chat-completion request issued while no adapter is active
fails immediately with the configuration error and issues no network
request; reloading the registry when the stored provider type requires a
credential (every type but `local`) and none is stored, or when the type
is unknown, leaves the registry unconfigured. -/
theorem c9_registry_unconfigured (t : String) (store : String → Option String)
    (call : LLMService.Provider → Except String String)
    (hlocal : t ≠ "local") (hne : t ≠ "") :
    (store (Kioku.jsToUpper t ++ "_API_KEY") = none →
        LLMService.loadProvider (some t) store = none)
  ∧ (t ≠ "groq" → t ≠ "openai" → t ≠ "anthropic" → t ≠ "gemini" →
        LLMService.loadProvider (some t) store = none)
  ∧ LLMService.chatCompletion none call
      = (.error "No AI provider configured. Please check your settings.", 0) := by
  refine ⟨?_, ?_, rfl⟩
  · intro hkey
    simp [LLMService.loadProvider, hne, hlocal, hkey]
  · intro h1 h2 h3 h4
    simp [LLMService.loadProvider, hne, hlocal, h1, h2, h3, h4]

/-- Witness for C9: the `groq` type with no stored key and an unknown
stored type both leave the registry unconfigured, and an unconfigured
registry rejects a chat-completion call with the configuration error and
zero network requests. -/
theorem c9_registry_unconfigured_witness :
    LLMService.loadProvider (some "groq") (fun _ => none) = none
  ∧ LLMService.loadProvider (some "bogus") (fun _ => some "k") = none
  ∧ LLMService.chatCompletion none (fun _ => .ok "x")
      = (.error "No AI provider configured. Please check your settings.", 0) := by
  obtain ⟨h1, -, h3⟩ := c9_registry_unconfigured "groq" (fun _ => none)
    (fun _ => .ok "x") (by decide) (by decide)
  obtain ⟨-, h2, -⟩ := c9_registry_unconfigured "bogus" (fun _ => some "k")
    (fun _ => .ok "x") (by decide) (by decide)
  exact ⟨h1 rfl, h2 (by decide) (by decide) (by decide) (by decide), h3⟩

/-- Claim C3: rolling synthesis triggers only at the 6-message threshold:
for a conversation with checkpoint `c` and current message count `n` (the
length of the message log), no extraction call is issued when `n - c < 6`;
when `n - c ≥ 6` exactly one extraction call is issued, its argument is
the unprocessed tail (the messages from index `c` onward, not the full
history), and the checkpoint becomes `n`. -/
theorem c3_rolling_synthesis_threshold
    (extract : List Kioku.Msg → List (String × String)) (c n : Nat)
    (msgs : List Kioku.Msg) (mem : List (String × String))
    (hn : n = msgs.length) :
    (n - c < 6 →
        ChatView.processRollingSynthesis extract (some c) msgs n mem = (mem, some c, []))
  ∧ (6 ≤ n - c →
        (ChatView.processRollingSynthesis extract (some c) msgs n mem).2.2
            = [msgs.drop c]
      ∧ (ChatView.processRollingSynthesis extract (some c) msgs n mem).2.1 = some n) := by
  constructor
  · intro h
    simp [ChatView.processRollingSynthesis, show ¬ (6 ≤ n - c) from by omega]
  · intro h
    have hlen : c < msgs.length := by omega
    simp [ChatView.processRollingSynthesis, h, hlen]

/-- Witness for C3: with checkpoint 0, five messages issue no call and
leave the checkpoint; six messages issue exactly one call carrying the
whole tail and the checkpoint becomes 6. -/
theorem c3_rolling_synthesis_threshold_witness :
    ChatView.processRollingSynthesis (fun _ => []) (some 0)
        (List.replicate 5 (⟨"user", "hi"⟩ : Kioku.Msg)) 5 [] = ([], some 0, [])
  ∧ (ChatView.processRollingSynthesis (fun _ => []) (some 0)
        (List.replicate 6 (⟨"user", "hi"⟩ : Kioku.Msg)) 6 []).2.2
      = [List.replicate 6 (⟨"user", "hi"⟩ : Kioku.Msg)]
  ∧ (ChatView.processRollingSynthesis (fun _ => []) (some 0)
        (List.replicate 6 (⟨"user", "hi"⟩ : Kioku.Msg)) 6 []).2.1 = some 6 := by
  obtain ⟨h5, -⟩ := c3_rolling_synthesis_threshold (fun _ => []) 0 5
    (List.replicate 5 ⟨"user", "hi"⟩) [] (by decide)
  obtain ⟨-, h6⟩ := c3_rolling_synthesis_threshold (fun _ => []) 0 6
    (List.replicate 6 ⟨"user", "hi"⟩) [] (by decide)
  exact ⟨h5 (by decide), (h6 (by decide)).1, (h6 (by decide)).2⟩

/-- Claim C1 counterexample: with checkpoint 0 and six messages, a
provider output whose brace stretch is malformed JSON makes the parse
fail (first conjunct), yet `processRollingSynthesis` advances the
checkpoint to 6 — the claim requires it to remain 0. -/
theorem c1_counterexample :
    Kioku.jsonParseFlat
        ((LLMService.jsonScan
            (String.mk [Kioku.lbrace, 'b', 'a', 'd', Kioku.rbrace])).getD
          LLMService.emptyObjText)
      = none
  ∧ (ChatView.processRollingSynthesis
        (LLMService.extractUserFacts
          (fun _ => .ok (String.mk [Kioku.lbrace, 'b', 'a', 'd', Kioku.rbrace]))
          Kioku.jsonParseFlat)
        (some 0) (List.replicate 6 ⟨"user", "hi"⟩) 6 []).2.1 = some 6
  ∧ some 6 ≠ (some 0 : Option Nat) := by
  exact ⟨by decide, by decide, by decide⟩

/-- Claim C1 (amended): when the threshold is met the checkpoint is
advanced to the new total message count regardless of the extraction
outcome: a provider error or a malformed-JSON parse failure is swallowed
inside `extractUserFacts`, which returns the empty fact set, so no facts
are written and the memory is unchanged — but the checkpoint still
becomes `n`, and the same tail is not retried on the next trigger. -/
theorem c1_checkpoint_advances_despite_failure
    (call : List Kioku.Msg → Except Unit String)
    (parse : String → Option (List (String × String)))
    (c n : Nat) (msgs : List Kioku.Msg) (mem : List (String × String))
    (hn : n = msgs.length) (ht : 6 ≤ n - c) :
    (ChatView.processRollingSynthesis (LLMService.extractUserFacts call parse)
        (some c) msgs n mem).2.1 = some n
  ∧ (∀ e, call (LLMService.extractionMessages (msgs.drop c)) = .error e →
        LLMService.extractUserFacts call parse (msgs.drop c) = []
      ∧ (ChatView.processRollingSynthesis (LLMService.extractUserFacts call parse)
            (some c) msgs n mem).1 = mem)
  ∧ (∀ r, call (LLMService.extractionMessages (msgs.drop c)) = .ok r →
        parse ((LLMService.jsonScan r).getD LLMService.emptyObjText) = none →
        LLMService.extractUserFacts call parse (msgs.drop c) = []
      ∧ (ChatView.processRollingSynthesis (LLMService.extractUserFacts call parse)
            (some c) msgs n mem).1 = mem) := by
  have hlen : c < msgs.length := by omega
  have hred : ChatView.processRollingSynthesis (LLMService.extractUserFacts call parse)
      (some c) msgs n mem
      = ((LLMService.extractUserFacts call parse (msgs.drop c)).foldl
          (fun m kv => ChatView.putFact m kv.1 kv.2) mem, some n, [msgs.drop c]) := by
    simp [ChatView.processRollingSynthesis, ht, hlen]
  refine ⟨by rw [hred], ?_, ?_⟩
  · intro e he
    have hex : LLMService.extractUserFacts call parse (msgs.drop c) = [] := by
      simp [LLMService.extractUserFacts, he]
    exact ⟨hex, by rw [hred, hex]; rfl⟩
  · intro r hr hp
    have hex : LLMService.extractUserFacts call parse (msgs.drop c) = [] := by
      simp [LLMService.extractUserFacts, hr, hp]
    exact ⟨hex, by rw [hred, hex]; rfl⟩

/-- Witness for the amended C1: at a concrete malformed provider output
the extractor returns no facts, the memory is unchanged, and the
checkpoint still advances from 0 to 6. -/
theorem c1_checkpoint_advances_despite_failure_witness :
    LLMService.extractUserFacts
        (fun _ => .ok (String.mk [Kioku.lbrace, 'b', 'a', 'd', Kioku.rbrace]))
        Kioku.jsonParseFlat (List.replicate 6 ⟨"user", "hi"⟩) = []
  ∧ (ChatView.processRollingSynthesis
        (LLMService.extractUserFacts
          (fun _ => .ok (String.mk [Kioku.lbrace, 'b', 'a', 'd', Kioku.rbrace]))
          Kioku.jsonParseFlat)
        (some 0) (List.replicate 6 ⟨"user", "hi"⟩) 6 [("k", "v")]).1 = [("k", "v")]
  ∧ (ChatView.processRollingSynthesis
        (LLMService.extractUserFacts
          (fun _ => .ok (String.mk [Kioku.lbrace, 'b', 'a', 'd', Kioku.rbrace]))
          Kioku.jsonParseFlat)
        (some 0) (List.replicate 6 ⟨"user", "hi"⟩) 6 [("k", "v")]).2.1 = some 6 := by
  obtain ⟨h1, -, h3⟩ := c1_checkpoint_advances_despite_failure
    (fun _ => .ok (String.mk [Kioku.lbrace, 'b', 'a', 'd', Kioku.rbrace]))
    Kioku.jsonParseFlat 0 6 (List.replicate 6 ⟨"user", "hi"⟩) [("k", "v")]
    (by decide) (by decide)
  obtain ⟨hex, hmem⟩ := h3 (String.mk [Kioku.lbrace, 'b', 'a', 'd', Kioku.rbrace])
    rfl (by decide)
  exact ⟨hex, hmem, h1⟩

namespace LLMService

open Kioku

theorem any_rbrace_false {l : List Char} (h : ∀ ch ∈ l, ch ≠ Kioku.rbrace) :
    l.any (fun d => d == Kioku.rbrace) = false := by
  rw [List.any_eq_false]
  intro ch hch
  simpa using h ch hch

theorem upToLastRbrace_free {post : List Char} (hpost : ∀ ch ∈ post, ch ≠ Kioku.rbrace) :
    upToLastRbrace post = [] := by
  induction post with
  | nil => rfl
  | cons c rest ih =>
    have hc : c ≠ Kioku.rbrace := hpost c (by simp)
    have hrest : ∀ ch ∈ rest, ch ≠ Kioku.rbrace := fun ch hch => hpost ch (by simp [hch])
    unfold upToLastRbrace
    rw [any_rbrace_false hrest]
    simp [hc]

theorem upToLastRbrace_append {post : List Char}
    (hpost : ∀ ch ∈ post, ch ≠ Kioku.rbrace) :
    ∀ t : List Char, upToLastRbrace (t ++ post) = upToLastRbrace t := by
  intro t
  induction t with
  | nil => simpa using upToLastRbrace_free hpost
  | cons c rest ih =>
    show upToLastRbrace (c :: (rest ++ post)) = upToLastRbrace (c :: rest)
    unfold upToLastRbrace
    rw [List.any_append, any_rbrace_false hpost]
    cases ha : rest.any (fun d => d == Kioku.rbrace) with
    | true => simp [ha, ih]
    | false => simp [ha]

theorem scanFromLbrace_rfree {post : List Char}
    (hpost : ∀ ch ∈ post, ch ≠ Kioku.rbrace) :
    scanFromLbrace post = none := by
  induction post with
  | nil => rfl
  | cons c rest ih =>
    have hrest : ∀ ch ∈ rest, ch ≠ Kioku.rbrace := fun ch hch => hpost ch (by simp [hch])
    unfold scanFromLbrace
    rw [if_neg]
    · exact ih hrest
    · rw [any_rbrace_false hrest]
      simp

theorem scanFromLbrace_append_right {post : List Char}
    (hpost : ∀ ch ∈ post, ch ≠ Kioku.rbrace) :
    ∀ t : List Char, scanFromLbrace (t ++ post) = scanFromLbrace t := by
  intro t
  induction t with
  | nil => simpa using scanFromLbrace_rfree hpost
  | cons c rest ih =>
    show scanFromLbrace (c :: (rest ++ post)) = scanFromLbrace (c :: rest)
    unfold scanFromLbrace
    rw [List.any_append, any_rbrace_false hpost, Bool.or_false]
    cases hcond : rest.any (fun d => d == Kioku.rbrace) with
    | true =>
      by_cases hc : c = Kioku.lbrace
      · simp only [hc, hcond, and_true, if_pos rfl, true_and, if_true]
        rw [upToLastRbrace_append hpost rest]
      · simp [hc, ih]
    | false =>
      by_cases hc : c = Kioku.lbrace <;> simp [hc, hcond, ih]

theorem scanFromLbrace_append_left :
    ∀ (pre : List Char), (∀ ch ∈ pre, ch ≠ Kioku.lbrace) →
      ∀ u : List Char, scanFromLbrace (pre ++ u) = scanFromLbrace u
  | [], _, _ => rfl
  | c :: rest, hpre, u => by
    have hc : c ≠ Kioku.lbrace := hpre c (by simp)
    have hrest : ∀ ch ∈ rest, ch ≠ Kioku.lbrace := fun ch hch => hpre ch (by simp [hch])
    have step : scanFromLbrace (c :: (rest ++ u)) = scanFromLbrace (rest ++ u) := by
      conv_lhs => unfold scanFromLbrace
      rw [if_neg (by simp [hc])]
    show scanFromLbrace (c :: (rest ++ u)) = scanFromLbrace u
    rw [step]
    exact scanFromLbrace_append_left rest hrest u

end LLMService

/-- Claim C4 counterexample: on output `OBJx}` (where `OBJ` is the valid
object `\x7b"a":"b"\x7d`), the scan selects the whole `OBJx}` stretch —
first brace to *last* brace, not the balanced object the claim describes
(shown by `firstBalancedObject`) — and since that stretch is malformed
JSON the extraction yields no facts, while the same output without the
trailing `x}` yields `a ↦ b`: text outside the first object does affect
the parsed result. -/
theorem c4_counterexample :
    LLMService.jsonScan
        (String.mk [Kioku.lbrace] ++ "\"a\":\"b\"" ++ String.mk [Kioku.rbrace] ++ "x"
          ++ String.mk [Kioku.rbrace])
      = some (String.mk [Kioku.lbrace] ++ "\"a\":\"b\"" ++ String.mk [Kioku.rbrace] ++ "x"
          ++ String.mk [Kioku.rbrace])
  ∧ SpecModel.firstBalancedObject
        (String.mk [Kioku.lbrace] ++ "\"a\":\"b\"" ++ String.mk [Kioku.rbrace] ++ "x"
          ++ String.mk [Kioku.rbrace])
      = some (String.mk [Kioku.lbrace] ++ "\"a\":\"b\"" ++ String.mk [Kioku.rbrace])
  ∧ LLMService.jsonScan
        (String.mk [Kioku.lbrace] ++ "\"a\":\"b\"" ++ String.mk [Kioku.rbrace] ++ "x"
          ++ String.mk [Kioku.rbrace])
      ≠ SpecModel.firstBalancedObject
          (String.mk [Kioku.lbrace] ++ "\"a\":\"b\"" ++ String.mk [Kioku.rbrace] ++ "x"
            ++ String.mk [Kioku.rbrace])
  ∧ LLMService.extractUserFacts
        (fun _ => .ok (String.mk [Kioku.lbrace] ++ "\"a\":\"b\"" ++ String.mk [Kioku.rbrace]
          ++ "x" ++ String.mk [Kioku.rbrace]))
        Kioku.jsonParseFlat [⟨"user", "hi"⟩] = []
  ∧ LLMService.extractUserFacts
        (fun _ => .ok (String.mk [Kioku.lbrace] ++ "\"a\":\"b\"" ++ String.mk [Kioku.rbrace]))
        Kioku.jsonParseFlat [⟨"user", "hi"⟩] = [("a", "b")]
  ∧ ([] : List (String × String)) ≠ [("a", "b")] := by
  exact ⟨by decide, by decide, by decide, by decide, by decide, by decide⟩

/-- Claim C4 (amended): the parser selects the stretch from the first
opening brace (one with some closing brace after it) through the *last*
closing brace of the raw output — not the first balanced object — parses
it, and writes the resulting pairs as facts; only text strictly before
the first opening brace (containing no opening brace) and text after the
last closing brace (containing no closing brace) is guaranteed not to
affect the parsed result. -/
theorem c4_scan_first_to_last_brace
    (pre s post : List Char)
    (parse : String → Option (List (String × String))) (msgs : List Kioku.Msg)
    (hpre : ∀ ch ∈ pre, ch ≠ Kioku.lbrace)
    (hpost : ∀ ch ∈ post, ch ≠ Kioku.rbrace) :
    LLMService.jsonScan (String.mk (pre ++ s ++ post)) = LLMService.jsonScan (String.mk s)
  ∧ LLMService.extractUserFacts (fun _ => .ok (String.mk (pre ++ s ++ post))) parse msgs
      = LLMService.extractUserFacts (fun _ => .ok (String.mk s)) parse msgs := by
  have hscan : LLMService.scanFromLbrace (pre ++ s ++ post) = LLMService.scanFromLbrace s := by
    rw [List.append_assoc, LLMService.scanFromLbrace_append_left pre hpre (s ++ post),
      LLMService.scanFromLbrace_append_right hpost s]
  have hjson : LLMService.jsonScan (String.mk (pre ++ s ++ post))
      = LLMService.jsonScan (String.mk s) := by
    unfold LLMService.jsonScan
    rw [show (String.mk (pre ++ s ++ post)).toList = pre ++ s ++ post from rfl,
      show (String.mk s).toList = s from rfl, hscan]
  refine ⟨hjson, ?_⟩
  have hred : ∀ r : String, LLMService.extractUserFacts (fun _ => .ok r) parse msgs
      = match parse ((LLMService.jsonScan r).getD LLMService.emptyObjText) with
        | some facts => facts
        | none => [] := fun _ => rfl
  rw [hred, hred, hjson]

/-- Witness for the amended C4: wrapping a concrete object in brace-free
prose changes neither the scanned stretch nor the extracted facts. -/
theorem c4_scan_first_to_last_brace_witness :
    LLMService.jsonScan
        (String.mk ("ok: ".toList
          ++ ([Kioku.lbrace] ++ "\"a\":\"b\"".toList ++ [Kioku.rbrace]) ++ " done".toList))
      = LLMService.jsonScan
          (String.mk ([Kioku.lbrace] ++ "\"a\":\"b\"".toList ++ [Kioku.rbrace]))
  ∧ LLMService.extractUserFacts
        (fun _ => .ok (String.mk ("ok: ".toList
          ++ ([Kioku.lbrace] ++ "\"a\":\"b\"".toList ++ [Kioku.rbrace]) ++ " done".toList)))
        Kioku.jsonParseFlat [⟨"user", "hi"⟩]
      = LLMService.extractUserFacts
          (fun _ => .ok (String.mk ([Kioku.lbrace] ++ "\"a\":\"b\"".toList ++ [Kioku.rbrace])))
          Kioku.jsonParseFlat [⟨"user", "hi"⟩] := by
  exact c4_scan_first_to_last_brace "ok: ".toList
    ([Kioku.lbrace] ++ "\"a\":\"b\"".toList ++ [Kioku.rbrace]) " done".toList
    Kioku.jsonParseFlat [⟨"user", "hi"⟩] (by decide) (by decide)

/-- Claim C7: explicit-memory extraction produces at most one fact per
message text; the first pattern rule in the fixed order that matches
wins; the fact's key is derived deterministically from the stored value
(the trimmed, punctuation-stripped matched remainder) by taking its first
three whitespace-split words, joining them with an underscore,
lower-casing and stripping every character outside `a-z0-9_`, with the
fixed fallback key `user_preference` when the derivation is empty; and
running the extraction twice on the same text yields the same key and
value. -/
theorem c7_explicit_memory_extraction (text : String) :
    LLMService.extractExplicitMemory text = LLMService.extractExplicitMemory text
  ∧ (LLMService.extractExplicitMemory text).toList.length ≤ 1
  ∧ (∀ cap, LLMService.scanMatch LLMService.pattern1 text.toList = some cap →
      LLMService.extractExplicitMemory text = some (LLMService.mkFact cap))
  ∧ (LLMService.scanMatch LLMService.pattern1 text.toList = none →
      ∀ cap, LLMService.scanMatch LLMService.pattern2 text.toList = some cap →
        LLMService.extractExplicitMemory text = some (LLMService.mkFact cap))
  ∧ (∀ k v, LLMService.extractExplicitMemory text = some (k, v) →
      k = (if LLMService.deriveKey v.toList = [] then "user_preference"
           else (LLMService.deriveKey v.toList).asString)) := by
  refine ⟨rfl, ?_, ?_, ?_, ?_⟩
  · cases LLMService.extractExplicitMemory text <;> simp
  · intro cap h
    simp only [LLMService.extractExplicitMemory, List.findSome?_cons, h]
    rfl
  · intro h1 cap h2
    simp only [LLMService.extractExplicitMemory, List.findSome?_cons, h1, h2]
    rfl
  · intro k v h
    unfold LLMService.extractExplicitMemory at h
    cases hf : [LLMService.pattern1, LLMService.pattern2].findSome?
        (fun p => LLMService.scanMatch p text.toList) with
    | none => rw [hf] at h; simp at h
    | some cap =>
      rw [hf] at h
      have h' : LLMService.mkFact cap = (k, v) := Option.some.inj h
      have hk : k = (LLMService.mkFact cap).1 := by rw [h']
      have hv : v = (LLMService.mkFact cap).2 := by rw [h']
      subst hk
      subst hv
      rfl

/-- Witness for C7: the message `Remember that I love coffee.` matches
the first rule with capture `love coffee.` and produces the single fact
`love_coffee ↦ love coffee`. -/
theorem c7_explicit_memory_extraction_witness :
    LLMService.extractExplicitMemory "Remember that I love coffee."
      = some ("love_coffee", "love coffee") := by
  obtain ⟨-, -, h3, -, -⟩ := c7_explicit_memory_extraction "Remember that I love coffee."
  exact (h3 "love coffee.".toList (by decide)).trans (by decide)

/-- Claim C8: once the completed assistant message yields the directive
captures (description, timestamp text), a timestamp text that parses as
a valid date produces exactly one directive with that description and
the parsed timestamp — the parser imposes no lower bound, so past dates
(here even a negative time value) are accepted — while an unparseable
timestamp produces no directive and no error (the function is total and
returns `none`); at most one directive is emitted per completed turn. -/
theorem c8_reminder_directive
    (dateParse : String → Option Int) (text : String) (desc ts : List Char)
    (hscan : ChatView.scanReminder text.toList = some (desc, ts)) :
    (∀ t : Int, dateParse ts.asString = some t →
        ChatView.parseReminder dateParse text = some (desc.asString, t))
  ∧ (dateParse ts.asString = none → ChatView.parseReminder dateParse text = none)
  ∧ (ChatView.parseReminder dateParse text).toList.length ≤ 1 := by
  refine ⟨?_, ?_, ?_⟩
  · intro t ht
    simp only [ChatView.parseReminder, hscan, ht]
  · intro ht
    simp only [ChatView.parseReminder, hscan, ht]
  · cases ChatView.parseReminder dateParse text <;> simp

/-- Witness for C8: the documented example directive yields `Call mom`
with its (here past-dated) parsed timestamp, and an unparseable date
yields no directive. -/
theorem c8_reminder_directive_witness :
    ChatView.parseReminder (fun s => if s = "2025-01-01 10:00" then some (-5) else none)
        "[REMINDER: \"Call mom\" AT \"2025-01-01 10:00\"]" = some ("Call mom", -5)
  ∧ ChatView.parseReminder (fun _ => none)
        "[REMINDER: \"Call mom\" AT \"not a date\"]" = none := by
  obtain ⟨h1, -, -⟩ := c8_reminder_directive
    (fun s => if s = "2025-01-01 10:00" then some (-5) else none)
    "[REMINDER: \"Call mom\" AT \"2025-01-01 10:00\"]"
    "Call mom".toList "2025-01-01 10:00".toList (by decide)
  obtain ⟨-, h2, -⟩ := c8_reminder_directive (fun _ => none)
    "[REMINDER: \"Call mom\" AT \"not a date\"]"
    "Call mom".toList "not a date".toList (by decide)
  exact ⟨h1 (-5) (by decide), h2 rfl⟩
